import Mathlib

/-!
Shallow embedding of the dynarmic-rs host layer:
* `src/src/memory.rs` — primitive codec, page spans, address space;
* `src/src/lib.rs`    — execution-context tick accounting.

Machine integers (`u32`, `u64`, `usize`) are modelled as `Nat`, with an
explicit `% 2^w` at the places where the Rust code can overflow or
truncate.  Fallible paths (`expect`, slice-indexing panics) are modelled
with `Except`.  Interior mutability (`Cell`) is modelled by explicit
state passing: operations return the updated state.
-/

deriving instance DecidableEq for Except

namespace Dynarmic

/-! ### Constants (memory.rs lines 5-9) -/

def PAGE_BITS : Nat := 12

def NUM_PAGE_TABLE_ENTRIES : Nat := 2 ^ (32 - PAGE_BITS)

/-- `(1 << PAGE_BITS) - 1` -/
def PAGE_LOWER_MASK : Nat := 2 ^ PAGE_BITS - 1

/-- `!PAGE_LOWER_MASK` as a `u32` bit pattern. -/
def PAGE_UPPER_MASK : Nat := (2 ^ 32 - 1) - PAGE_LOWER_MASK

def PAGE_SIZE : Nat := 2 ^ PAGE_BITS

/-- `usize::MAX`: the Rust code computes `offset & !T::ALIGN` at `usize` width. -/
def USIZE_MAX : Nat := 2 ^ 64 - 1

/-! ### The `Primitive` trait (memory.rs lines 11-67)

The trait is implemented for `u8`, `u16`, `u32`, `u64` and `[T; 2]` for any
primitive `T`.  We reify the closed family of implementing types as an
inductive `PrimTy`; `PrimTy.Val` is the corresponding value type, and
`PrimTy.read` / `PrimTy.write` are the little-endian codec functions
(`LE::read_uN` / `LE::write_uN` from the byteorder crate, and the
index-order concatenation of the `[T; 2]` impl). -/

inductive PrimTy : Type where
  | u8 : PrimTy
  | u16 : PrimTy
  | u32 : PrimTy
  | u64 : PrimTy
  | pair : PrimTy → PrimTy
deriving DecidableEq, Repr

/-- `std::mem::size_of::<Self>()` -/
def PrimTy.size : PrimTy → Nat
  | .u8 => 1
  | .u16 => 2
  | .u32 => 4
  | .u64 => 8
  | .pair t => 2 * t.size

/-- `const ALIGN: usize = Self::SIZE - 1` -/
def PrimTy.ALIGN (t : PrimTy) : Nat := t.size - 1

/-- Every primitive size is a power of two; the exponent. -/
def PrimTy.sizeLog2 : PrimTy → Nat
  | .u8 => 0
  | .u16 => 1
  | .u32 => 2
  | .u64 => 3
  | .pair t => t.sizeLog2 + 1

theorem PrimTy.size_eq_two_pow (t : PrimTy) : t.size = 2 ^ t.sizeLog2 := by
  induction t with
  | u8 => rfl
  | u16 => rfl
  | u32 => rfl
  | u64 => rfl
  | pair t ih => simp [PrimTy.size, PrimTy.sizeLog2, ih, Nat.pow_succ, Nat.mul_comm]

theorem PrimTy.size_pos (t : PrimTy) : 0 < t.size := by
  rw [t.size_eq_two_pow]; exact Nat.pos_pow_of_pos _ (by norm_num)

/-- The Rust value type of each primitive width. -/
@[reducible] def PrimTy.Val : PrimTy → Type
  | .u8 => Nat
  | .u16 => Nat
  | .u32 => Nat
  | .u64 => Nat
  | .pair t => t.Val × t.Val

/-- Little-endian decoding of a byte list (`LE::read_uN`). -/
def fromLEBytes : List Nat → Nat
  | [] => 0
  | b :: bs => b + 256 * fromLEBytes bs

/-- Little-endian encoding of `v` into `n` bytes (`LE::write_uN`). -/
def toLEBytes : Nat → Nat → List Nat
  | 0, _ => []
  | n + 1, v => v % 256 :: toLEBytes n (v / 256)

/-- `Primitive::read` — decode `Self` from a byte window.
`u8` reads `b[0]`; `uN` does `LE::read_uN(b)` (first `N/8` bytes);
`[T; 2]` reads element `i` from `b[i*T::SIZE..(i+1)*T::SIZE]`. -/
def PrimTy.read : (t : PrimTy) → List Nat → t.Val
  | .u8, b => fromLEBytes (b.take 1)
  | .u16, b => fromLEBytes (b.take 2)
  | .u32, b => fromLEBytes (b.take 4)
  | .u64, b => fromLEBytes (b.take 8)
  | .pair t, b => (t.read (b.take t.size), t.read ((b.drop t.size).take t.size))

/-- `Primitive::write` — encode `self` into a byte window of exactly
`SIZE` bytes; `[T; 2]` writes the two elements concatenated in index
order. -/
def PrimTy.write : (t : PrimTy) → t.Val → List Nat
  | .u8, v => toLEBytes 1 v
  | .u16, v => toLEBytes 2 v
  | .u32, v => toLEBytes 4 v
  | .u64, v => toLEBytes 8 v
  | .pair t, v => t.write v.1 ++ t.write v.2

/-- The value fits the Rust integer type of width `t` (each component is
below `2^(8·SIZE)`); automatic in Rust from the typing of `uN`. -/
def PrimTy.valFits : (t : PrimTy) → t.Val → Bool
  | .u8, v => decide (v < 256 ^ 1)
  | .u16, v => decide (v < 256 ^ 2)
  | .u32, v => decide (v < 256 ^ 4)
  | .u64, v => decide (v < 256 ^ 8)
  | .pair t, v => t.valFits v.1 && t.valFits v.2

theorem toLEBytes_length (n v : Nat) : (toLEBytes n v).length = n := by
  induction n generalizing v with
  | zero => rfl
  | succ n ih => simp [toLEBytes, ih]

theorem PrimTy.write_length (t : PrimTy) (v : t.Val) : (t.write v).length = t.size := by
  induction t with
  | u8 => simp [PrimTy.write, PrimTy.size, toLEBytes_length]
  | u16 => simp [PrimTy.write, PrimTy.size, toLEBytes_length]
  | u32 => simp [PrimTy.write, PrimTy.size, toLEBytes_length]
  | u64 => simp [PrimTy.write, PrimTy.size, toLEBytes_length]
  | pair t ih => simp [PrimTy.write, PrimTy.size, ih]; omega

theorem fromLEBytes_toLEBytes (n v : Nat) :
    fromLEBytes (toLEBytes n v) = v % 256 ^ n := by
  induction n generalizing v with
  | zero => simp [toLEBytes, fromLEBytes, Nat.mod_one]
  | succ n ih =>
      simp only [toLEBytes, fromLEBytes, ih]
      rw [Nat.pow_succ, Nat.mul_comm (256 ^ n) 256, Nat.mod_mul]

theorem fromLEBytes_take_toLEBytes (n v : Nat) (h : v < 256 ^ n) :
    fromLEBytes ((toLEBytes n v).take n) = v := by
  rw [List.take_of_length_le (by rw [toLEBytes_length]), fromLEBytes_toLEBytes,
    Nat.mod_eq_of_lt h]

/-- Decode after encode is the identity on well-typed values. -/
theorem PrimTy.read_write (t : PrimTy) (v : t.Val) (h : t.valFits v = true) :
    t.read (t.write v) = v := by
  induction t with
  | u8 =>
      simp only [PrimTy.valFits, decide_eq_true_eq] at h
      exact fromLEBytes_take_toLEBytes 1 v h
  | u16 =>
      simp only [PrimTy.valFits, decide_eq_true_eq] at h
      exact fromLEBytes_take_toLEBytes 2 v h
  | u32 =>
      simp only [PrimTy.valFits, decide_eq_true_eq] at h
      exact fromLEBytes_take_toLEBytes 4 v h
  | u64 =>
      simp only [PrimTy.valFits, decide_eq_true_eq] at h
      exact fromLEBytes_take_toLEBytes 8 v h
  | pair t ih =>
      obtain ⟨v1, v2⟩ := v
      simp only [PrimTy.valFits, Bool.and_eq_true] at h
      have htake : (t.write v1 ++ t.write v2).take t.size = t.write v1 := by
        rw [← t.write_length v1]; exact List.take_left _ _
      have hdrop : (t.write v1 ++ t.write v2).drop t.size = t.write v2 := by
        rw [← t.write_length v1]; exact List.drop_left _ _
      simp only [PrimTy.read, PrimTy.write, htake, hdrop,
        List.take_of_length_le (le_of_eq (t.write_length v2)), ih v1 h.1, ih v2 h.2]

/-! ### Page spans and the address space (memory.rs lines 69-211)

The `IOPage` trait object is modelled by a type parameter `H` (the
handler state) together with its two methods `read`/`write`; a method
returns the updated handler state (`&mut self`).  The errors are the
code's failure modes: the two `expect` panics and the slice-indexing
panic of the `Normal` branches. -/

inductive MemError : Type where
  | UnmappedAccess : MemError
  | ReentrantAccess : MemError
  | OutOfBounds : MemError
deriving DecidableEq, Repr

/-- The `IOPage` trait (memory.rs lines 84-87): `read` takes the span
offset and the window size and yields the bytes placed in the window,
`write` takes the offset and the window contents. -/
structure IOPageOps (H : Type) where
  read : H → Nat → Nat → List Nat × H
  write : H → Nat → List Nat → H

inductive PageSpanKind (H : Type) : Type where
  | Normal : (backing : List Nat) → PageSpanKind H
  | Mmio : (handler : Option H) → PageSpanKind H
deriving DecidableEq

/-- `PageSpanKind::read` (memory.rs lines 90-108).  The first step masks
the offset with `!T::ALIGN` at `usize` width.  The `Normal` branch reads
`bytes[offset..offset+SIZE]` (slice panic modelled as `OutOfBounds`);
the MMIO branch `take`s the handler (`expect` = `ReentrantAccess` when
already taken), lets it fill the first `SIZE` bytes of a zeroed 8-byte
buffer (`&mut src[..T::SIZE]` panics when `SIZE > 8`), decodes the
buffer, and puts the handler back. -/
def PageSpanKind.read {H : Type} (ops : IOPageOps H) (t : PrimTy)
    (k : PageSpanKind H) (offset : Nat) :
    Except MemError (t.Val × PageSpanKind H) :=
  let offset := offset &&& (USIZE_MAX - t.ALIGN)
  match k with
  | .Normal backing =>
      if offset + t.size ≤ backing.length then
        .ok (t.read ((backing.drop offset).take t.size), .Normal backing)
      else
        .error .OutOfBounds
  | .Mmio handler =>
      match handler with
      | none => .error .ReentrantAccess
      | some h =>
          if t.size ≤ 8 then
            let r := ops.read h offset t.size
            .ok (t.read (r.1.take t.size ++ List.replicate (8 - t.size) 0),
              .Mmio (some r.2))
          else
            .error .OutOfBounds

/-- `PageSpanKind::write` (memory.rs lines 110-127), mirror of `read`:
the `Normal` branch splices the encoded value into the backing at the
masked offset; the MMIO branch hands the encoded `SIZE` bytes to the
handler. -/
def PageSpanKind.write {H : Type} (ops : IOPageOps H) (t : PrimTy)
    (k : PageSpanKind H) (offset : Nat) (value : t.Val) :
    Except MemError (PageSpanKind H) :=
  let offset := offset &&& (USIZE_MAX - t.ALIGN)
  match k with
  | .Normal backing =>
      if offset + t.size ≤ backing.length then
        .ok (.Normal (backing.take offset ++ t.write value
          ++ backing.drop (offset + t.size)))
      else
        .error .OutOfBounds
  | .Mmio handler =>
      match handler with
      | none => .error .ReentrantAccess
      | some h =>
          if t.size ≤ 8 then
            .ok (.Mmio (some (ops.write h offset (t.write value))))
          else
            .error .OutOfBounds

structure PageSpan (H : Type) : Type where
  size : Nat          -- u32, in pages
  kind : PageSpanKind H
  read_only : Bool
deriving DecidableEq

/-- `MemoryImpl` (memory.rs line 136): `BTreeMap<u32, PageSpan>`,
modelled as an association list with unique keys (`btreeInsert` below
replaces the value at an existing key, as `BTreeMap::insert` does; the
greatest-lower-bound query below does not depend on entry order). -/
structure MemoryImpl (H : Type) : Type where
  pages : List (Nat × PageSpan H)
deriving DecidableEq

/-- `MemoryLookup` (memory.rs lines 140-143).  `key` records the
`BTreeMap` key (`found_page`) of the entry: the Rust code mutates the
found span through interior mutability, while the embedding needs the
key to write the updated span back into the map. -/
structure MemoryLookup (α : Type) : Type where
  item : α
  offset : Nat        -- u32: `page - found_page` (in pages)
  key : Nat
deriving DecidableEq

/-- `BTreeMap::insert`: replace the value at an existing key, otherwise
add the entry. -/
def btreeInsert {α : Type} : List (Nat × α) → Nat → α → List (Nat × α)
  | [], k, v => [(k, v)]
  | e :: rest, k, v =>
      if e.1 = k then (k, v) :: rest else e :: btreeInsert rest k v

/-- `self.pages.range((Included(&0), Included(&page))).rev().next()`:
the entry with the greatest key `≤ page`, if any. -/
def glbFind {α : Type} : List (Nat × α) → Nat → Option (Nat × α)
  | [], _ => none
  | e :: rest, page =>
      match glbFind rest page with
      | none => if e.1 ≤ page then some e else none
      | some e' => if e.1 ≤ page ∧ e'.1 < e.1 then some e else some e'

/-- Replace the value stored at key `k` (the in-place span update that
the Rust code performs through `Cell`). -/
def listUpdate {α : Type} (l : List (Nat × α)) (k : Nat) (v : α) :
    List (Nat × α) :=
  l.map fun e => if e.1 = k then (e.1, v) else e

def MemoryImpl.new {H : Type} : MemoryImpl H := ⟨[]⟩

/-- `MemoryImpl::lookup` (memory.rs lines 152-163): greatest key
`found_page ≤ page`; hit iff `found_page + size > page`.  The sum is
`u32` arithmetic, hence the `% 2^32`. -/
def MemoryImpl.lookup {H : Type} (m : MemoryImpl H) (page : Nat) :
    Option (MemoryLookup (PageSpan H)) :=
  match glbFind m.pages page with
  | none => none
  | some e =>
      if page < (e.1 + e.2.size) % 2 ^ 32 then
        some ⟨e.2, page - e.1, e.1⟩
      else
        none

/-- `MemoryImpl::is_mapped` (memory.rs lines 178-180). -/
def MemoryImpl.is_mapped {H : Type} (m : MemoryImpl H) (addr : Nat) : Bool :=
  (m.lookup ((addr &&& PAGE_UPPER_MASK) >>> PAGE_BITS)).isSome

/-- `MemoryImpl::map_memory` (memory.rs lines 182-192): build a `Normal`
span of `pages << PAGE_BITS` zero bytes (`u32` shift, hence `% 2^32`)
and insert it at key `addr >> PAGE_BITS` — unconditionally. -/
def MemoryImpl.map_memory {H : Type} (m : MemoryImpl H)
    (addr pages : Nat) (read_only : Bool) : MemoryImpl H :=
  ⟨btreeInsert m.pages (addr >>> PAGE_BITS)
    ⟨pages, .Normal (List.replicate ((pages <<< PAGE_BITS) % 2 ^ 32) 0),
      read_only⟩⟩

/-- `<MemoryImpl as Memory>::read` (memory.rs lines 196-200): page =
`(addr & !PAGE_LOWER_MASK) >> PAGE_BITS`; `expect` on a failed lookup is
`UnmappedAccess`; dispatch at span offset
`lookup.offset + (addr & PAGE_LOWER_MASK)` (note: `lookup.offset` is in
pages — this is the unit-mixing slip examined below). -/
def MemoryImpl.read {H : Type} (ops : IOPageOps H) (t : PrimTy)
    (m : MemoryImpl H) (addr : Nat) :
    Except MemError (t.Val × MemoryImpl H) :=
  match m.lookup ((addr &&& PAGE_UPPER_MASK) >>> PAGE_BITS) with
  | none => .error .UnmappedAccess
  | some lk =>
      (lk.item.kind.read ops t (lk.offset + (addr &&& PAGE_LOWER_MASK))).map
        fun r => (r.1, ⟨listUpdate m.pages lk.key
          ⟨lk.item.size, r.2, lk.item.read_only⟩⟩)

/-- `<MemoryImpl as Memory>::write` (memory.rs lines 202-206). -/
def MemoryImpl.write {H : Type} (ops : IOPageOps H) (t : PrimTy)
    (m : MemoryImpl H) (addr : Nat) (value : t.Val) :
    Except MemError (MemoryImpl H) :=
  match m.lookup ((addr &&& PAGE_UPPER_MASK) >>> PAGE_BITS) with
  | none => .error .UnmappedAccess
  | some lk =>
      (lk.item.kind.write ops t (lk.offset + (addr &&& PAGE_LOWER_MASK))
        value).map
        fun kind2 => ⟨listUpdate m.pages lk.key
          ⟨lk.item.size, kind2, lk.item.read_only⟩⟩

/-- `<MemoryImpl as Memory>::is_read_only` (memory.rs lines 208-210):
`unwrap` on a failed lookup is `UnmappedAccess`. -/
def MemoryImpl.is_read_only {H : Type} (m : MemoryImpl H) (addr : Nat) :
    Except MemError Bool :=
  match m.lookup ((addr &&& PAGE_UPPER_MASK) >>> PAGE_BITS) with
  | none => .error .UnmappedAccess
  | some lk => .ok lk.item.read_only

/-- A trivial handler for instantiating the theorems. -/
def unitOps : IOPageOps Unit :=
  ⟨fun _ _ n => (List.replicate n 0, ()), fun _ _ _ => ()⟩

/-! ### Execution-context tick budget (lib.rs lines 20-23, 103-111, 142-146) -/

/-- The tick counter of `Context<H>`: a `u64`, modelled as a `Nat` that
the operations keep below `2^64`. -/
structure Context : Type where
  ticks : Nat
deriving DecidableEq, Repr

/-- `Executor::new` creates the context with `ticks: std::u64::MAX`. -/
def Context.new : Context := ⟨2 ^ 64 - 1⟩

/-- `Context::add_ticks`: `ctx.ticks = ctx.ticks.saturating_sub(ticks)`.
`u64::saturating_sub` is exactly truncated `Nat` subtraction. -/
def Context.add_ticks (c : Context) (ticks : Nat) : Context :=
  ⟨c.ticks - ticks⟩

/-- `Context::get_ticks_remaining`. -/
def Context.get_ticks_remaining (c : Context) : Nat := c.ticks

/-! ### Arithmetic bridges for the bit masks -/

theorem land_two_pow_sub_two_pow (w k off : Nat) (hoff : off < 2 ^ w)
    (hk : k ≤ w) : off &&& (2 ^ w - 2 ^ k) = off - off % 2 ^ k := by
  have hmask : 2 ^ w - 2 ^ k = (2 ^ (w - k) - 1) <<< k := by
    rw [Nat.shiftLeft_eq, Nat.sub_mul, one_mul, ← Nat.pow_add]
    congr 2
    omega
  have hrhs : off - off % 2 ^ k = (off >>> k) <<< k := by
    rw [Nat.shiftRight_eq_div_pow, Nat.shiftLeft_eq]
    have h := Nat.div_add_mod off (2 ^ k)
    rw [Nat.mul_comm] at h
    omega
  rw [hmask, hrhs]
  apply Nat.eq_of_testBit_eq
  intro i
  rw [Nat.testBit_and, Nat.testBit_shiftLeft, Nat.testBit_shiftLeft,
    Nat.testBit_shiftRight, Nat.testBit_two_pow_sub_one]
  by_cases hik : k ≤ i
  · rw [Nat.add_sub_cancel' hik]
    by_cases hiw : i < w
    · simp [hik, show i - k < w - k by omega]
    · have hbit : off.testBit i = false :=
        Nat.testBit_lt_two_pow
          (lt_of_lt_of_le hoff (Nat.pow_le_pow_right (by norm_num) (by omega)))
      simp [hik, hbit]
  · simp [hik]

theorem and_upper_shift (a : Nat) (ha : a < 2 ^ 32) :
    (a &&& PAGE_UPPER_MASK) >>> PAGE_BITS = a / 4096 := by
  have h1 : PAGE_UPPER_MASK = 2 ^ 32 - 2 ^ 12 := by decide
  rw [h1, land_two_pow_sub_two_pow 32 12 a ha (by norm_num)]
  have h2 : a - a % 2 ^ 12 = 2 ^ 12 * (a / 2 ^ 12) := by
    have := Nat.div_add_mod a (2 ^ 12)
    omega
  rw [h2]
  simp only [PAGE_BITS]
  rw [Nat.shiftRight_eq_div_pow, Nat.mul_div_cancel_left _ (by norm_num : 0 < 2 ^ 12)]
  norm_num

theorem and_lower (a : Nat) : a &&& PAGE_LOWER_MASK = a % 4096 := by
  have h1 : PAGE_LOWER_MASK = 2 ^ 12 - 1 := by decide
  rw [h1, Nat.and_pow_two_sub_one_eq_mod]

theorem shiftRight_page_bits (a : Nat) : a >>> PAGE_BITS = a / 4096 := by
  simp only [PAGE_BITS]
  rw [Nat.shiftRight_eq_div_pow]

theorem shiftLeft_page_bits (n : Nat) : n <<< PAGE_BITS = n * 4096 := by
  simp only [PAGE_BITS]
  rw [Nat.shiftLeft_eq]

theorem PrimTy.sizeLog2_le_twelve (t : PrimTy) (ht : t.size ≤ 4096) :
    t.sizeLog2 ≤ 12 := by
  have hsz := t.size_eq_two_pow
  by_contra hgt
  push_neg at hgt
  have h13 : (8192 : Nat) ≤ 2 ^ t.sizeLog2 := by
    calc (8192 : Nat) = 2 ^ 13 := by norm_num
    _ ≤ 2 ^ t.sizeLog2 := Nat.pow_le_pow_right (by norm_num) (by omega)
  omega

theorem maskAlign_eq (t : PrimTy) (off : Nat) (hoff : off < 2 ^ 64)
    (ht : t.size ≤ 4096) :
    off &&& (USIZE_MAX - t.ALIGN) = off - off % t.size := by
  have hsz := t.size_eq_two_pow
  have hpos := t.size_pos
  have hk : t.sizeLog2 ≤ 64 := le_trans (t.sizeLog2_le_twelve ht) (by norm_num)
  have h2 : 2 ^ t.sizeLog2 ≤ 2 ^ 64 := Nat.pow_le_pow_right (by norm_num) hk
  have hmask : USIZE_MAX - t.ALIGN = 2 ^ 64 - 2 ^ t.sizeLog2 := by
    simp only [USIZE_MAX, PrimTy.ALIGN]
    omega
  rw [hmask, hsz, land_two_pow_sub_two_pow 64 t.sizeLog2 off hoff hk]

/-! ### Lookup and update helpers -/

theorem lookup_single {H : Type} (k0 : Nat) (s : PageSpan H) (p : Nat) :
    MemoryImpl.lookup ⟨[(k0, s)]⟩ p =
      if k0 ≤ p ∧ p < (k0 + s.size) % 2 ^ 32 then
        some ⟨s, p - k0, k0⟩
      else
        none := by
  simp only [MemoryImpl.lookup, glbFind]
  by_cases h1 : k0 ≤ p
  · by_cases h2 : p < (k0 + s.size) % 2 ^ 32 <;> simp [h1, h2]
  · simp [h1]

theorem glbFind_map {α β : Type} (f : Nat × α → Nat × β)
    (hf : ∀ e, (f e).1 = e.1) (l : List (Nat × α)) (p : Nat) :
    glbFind (l.map f) p = (glbFind l p).map f := by
  induction l with
  | nil => rfl
  | cons e rest ih =>
      simp only [List.map_cons, glbFind, ih]
      cases hg : glbFind rest p with
      | none => simp [hf, apply_ite]
      | some e2 =>
          simp only [Option.map]
          rw [hf e2]
          by_cases hc : e.1 ≤ p ∧ e2.1 < e.1
          · simp [hf, hc]
          · simp [hf, hc]

theorem listUpdate_keeps_key {α : Type} (k : Nat) (v : α) (e : Nat × α) :
    ((fun e => if e.1 = k then (e.1, v) else e) e).1 = e.1 := by
  by_cases h : e.1 = k <;> simp [h]

theorem listUpdate_keys {α : Type} (l : List (Nat × α)) (k : Nat) (v : α) :
    (listUpdate l k v).map Prod.fst = l.map Prod.fst := by
  simp only [listUpdate, List.map_map]
  apply List.map_congr_left
  intro e _
  exact listUpdate_keeps_key k v e

theorem lookup_cons {α : Type} (k2 ek : Nat) (ev : α) (rest : List (Nat × α)) :
    List.lookup k2 ((ek, ev) :: rest) =
      if k2 == ek then some ev else List.lookup k2 rest := by
  cases h : k2 == ek <;> simp [List.lookup, h]

theorem listUpdate_lookup_ne {α : Type} (l : List (Nat × α)) (k k2 : Nat)
    (v : α) (h : k2 ≠ k) :
    List.lookup k2 (listUpdate l k v) = List.lookup k2 l := by
  induction l with
  | nil => rfl
  | cons e rest ih =>
      obtain ⟨ek, ev⟩ := e
      simp only [listUpdate, List.map_cons] at ih ⊢
      by_cases he : ek = k
      · have hif : (if ((ek, ev) : Nat × α).1 = k then (((ek, ev) : Nat × α).1, v)
            else (ek, ev)) = (ek, v) := if_pos he
        rw [hif, lookup_cons, lookup_cons]
        have hne : (k2 == ek) = false := by
          simpa using fun hh => h (hh.trans he)
        simp [hne, ih]
      · have hif : (if ((ek, ev) : Nat × α).1 = k then (((ek, ev) : Nat × α).1, v)
            else (ek, ev)) = (ek, ev) := if_neg he
        rw [hif, lookup_cons, lookup_cons]
        cases hk2 : k2 == ek <;> simp [hk2, ih]

theorem btreeInsert_lookup_self {α : Type} (l : List (Nat × α)) (k : Nat)
    (v : α) : List.lookup k (btreeInsert l k v) = some v := by
  induction l with
  | nil => simp [btreeInsert, lookup_cons]
  | cons e rest ih =>
      obtain ⟨ek, ev⟩ := e
      simp only [btreeInsert]
      by_cases he : ek = k
      · rw [if_pos he, lookup_cons]
        simp
      · rw [if_neg he, lookup_cons]
        have hne : (k == ek) = false := by
          simpa using fun hh => he hh.symm
        simp [hne, ih]

theorem btreeInsert_lookup_ne {α : Type} (l : List (Nat × α)) (k k2 : Nat)
    (v : α) (h : k2 ≠ k) :
    List.lookup k2 (btreeInsert l k v) = List.lookup k2 l := by
  induction l with
  | nil =>
      have hne : (k2 == k) = false := by simpa using h
      simp [btreeInsert, lookup_cons, hne]
  | cons e rest ih =>
      obtain ⟨ek, ev⟩ := e
      simp only [btreeInsert]
      by_cases he : ek = k
      · rw [if_pos he, lookup_cons, lookup_cons]
        have hne : (k2 == k) = false := by simpa using h
        have hne2 : (k2 == ek) = false := by
          simpa using fun hh => h (hh.trans he)
        simp [hne, hne2]
      · rw [if_neg he, lookup_cons, lookup_cons]
        cases hk2 : k2 == ek <;> simp [hk2, ih]

/-! ### Byte-splice lemmas (the `Normal` write path) -/

theorem splice_length {α : Type} (b w : List α) (o : Nat)
    (h : o + w.length ≤ b.length) :
    (b.take o ++ w ++ b.drop (o + w.length)).length = b.length := by
  simp only [List.length_append, List.length_take, List.length_drop]
  omega

theorem splice_getElem_lt {α : Type} (b w : List α) (o i : Nat)
    (ho : o ≤ b.length) (hi : i < o) :
    (b.take o ++ w ++ b.drop (o + w.length))[i]? = b[i]? := by
  have h1 : i < (b.take o).length := by
    simp only [List.length_take]
    omega
  have h2 : i < (b.take o ++ w).length := by
    simp only [List.length_append]
    omega
  rw [List.getElem?_append_left h2, List.getElem?_append_left h1,
    List.getElem?_take_of_lt hi]

theorem splice_getElem_ge {α : Type} (b w : List α) (o i : Nat)
    (ho : o ≤ b.length) (hi : o + w.length ≤ i) :
    (b.take o ++ w ++ b.drop (o + w.length))[i]? = b[i]? := by
  have hlen : (b.take o ++ w).length = o + w.length := by
    simp only [List.length_append, List.length_take]
    omega
  rw [List.getElem?_append_right (by rw [hlen]; omega), hlen,
    List.getElem?_drop]
  congr 1
  omega

theorem splice_window {α : Type} (b w : List α) (o : Nat)
    (ho : o ≤ b.length) :
    ((b.take o ++ w ++ b.drop (o + w.length)).drop o).take w.length = w := by
  have hlen : (b.take o).length = o := by
    simp only [List.length_take]
    omega
  rw [List.append_assoc, List.drop_left' hlen]
  exact List.take_left _ _

/-! ### Unfolding lemmas for the `Memory` trait methods -/

theorem MemoryImpl.lookup_inv {H : Type} (m : MemoryImpl H) (p : Nat)
    (lk : MemoryLookup (PageSpan H)) (h : m.lookup p = some lk) :
    glbFind m.pages p = some (lk.key, lk.item) ∧
      p < (lk.key + lk.item.size) % 2 ^ 32 ∧ lk.offset = p - lk.key := by
  unfold MemoryImpl.lookup at h
  cases hg : glbFind m.pages p with
  | none =>
      simp only [hg] at h
      exact Option.noConfusion h
  | some e =>
      obtain ⟨ek, eitem⟩ := e
      simp only [hg] at h
      by_cases hc : p < (ek + eitem.size) % 2 ^ 32
      · rw [if_pos hc] at h
        have hlk := (Option.some.inj h).symm
        subst hlk
        exact ⟨rfl, hc, rfl⟩
      · rw [if_neg hc] at h
        exact Option.noConfusion h

theorem MemoryImpl.read_eq_of_lookup {H : Type} (ops : IOPageOps H)
    (t : PrimTy) (m : MemoryImpl H) (addr : Nat)
    (lk : MemoryLookup (PageSpan H))
    (h : m.lookup ((addr &&& PAGE_UPPER_MASK) >>> PAGE_BITS) = some lk) :
    m.read ops t addr =
      (lk.item.kind.read ops t (lk.offset + (addr &&& PAGE_LOWER_MASK))).map
        fun r => (r.1, ⟨listUpdate m.pages lk.key
          ⟨lk.item.size, r.2, lk.item.read_only⟩⟩) := by
  unfold MemoryImpl.read
  simp only [h]

theorem MemoryImpl.write_eq_of_lookup {H : Type} (ops : IOPageOps H)
    (t : PrimTy) (m : MemoryImpl H) (addr : Nat) (v : t.Val)
    (lk : MemoryLookup (PageSpan H))
    (h : m.lookup ((addr &&& PAGE_UPPER_MASK) >>> PAGE_BITS) = some lk) :
    m.write ops t addr v =
      (lk.item.kind.write ops t (lk.offset + (addr &&& PAGE_LOWER_MASK))
        v).map
        fun kind2 => ⟨listUpdate m.pages lk.key
          ⟨lk.item.size, kind2, lk.item.read_only⟩⟩ := by
  unfold MemoryImpl.write
  simp only [h]

theorem MemoryImpl.read_eq_of_unmapped {H : Type} (ops : IOPageOps H)
    (t : PrimTy) (m : MemoryImpl H) (addr : Nat)
    (h : m.lookup ((addr &&& PAGE_UPPER_MASK) >>> PAGE_BITS) = none) :
    m.read ops t addr = .error .UnmappedAccess := by
  unfold MemoryImpl.read
  simp only [h]

theorem MemoryImpl.write_eq_of_unmapped {H : Type} (ops : IOPageOps H)
    (t : PrimTy) (m : MemoryImpl H) (addr : Nat) (v : t.Val)
    (h : m.lookup ((addr &&& PAGE_UPPER_MASK) >>> PAGE_BITS) = none) :
    m.write ops t addr v = .error .UnmappedAccess := by
  unfold MemoryImpl.write
  simp only [h]

theorem PageSpanKind.write_normal {H : Type} (ops : IOPageOps H)
    (t : PrimTy) (B : List Nat) (x : Nat) (v : t.Val) (o : Nat)
    (ho : x &&& (USIZE_MAX - t.ALIGN) = o) (hb : o + t.size ≤ B.length) :
    PageSpanKind.write (H := H) ops t (.Normal B) x v
      = .ok (.Normal (B.take o ++ t.write v ++ B.drop (o + t.size))) := by
  unfold PageSpanKind.write
  dsimp only
  rw [ho, if_pos hb]

theorem PageSpanKind.read_normal {H : Type} (ops : IOPageOps H)
    (t : PrimTy) (B : List Nat) (x o : Nat)
    (ho : x &&& (USIZE_MAX - t.ALIGN) = o) (hb : o + t.size ≤ B.length) :
    PageSpanKind.read (H := H) ops t (.Normal B) x
      = .ok (t.read ((B.drop o).take t.size), .Normal B) := by
  unfold PageSpanKind.read
  dsimp only
  rw [ho, if_pos hb]

theorem PageSpanKind.read_mmio {H : Type} (ops : IOPageOps H)
    (t : PrimTy) (hdl : H) (x : Nat) (h8 : t.size ≤ 8) :
    PageSpanKind.read (H := H) ops t (.Mmio (some hdl)) x
      = .ok (t.read
          ((ops.read hdl (x &&& (USIZE_MAX - t.ALIGN)) t.size).1.take t.size
            ++ List.replicate (8 - t.size) 0),
        .Mmio (some (ops.read hdl (x &&& (USIZE_MAX - t.ALIGN)) t.size).2)) := by
  unfold PageSpanKind.read
  dsimp only
  rw [if_pos h8]

theorem PageSpanKind.write_mmio {H : Type} (ops : IOPageOps H)
    (t : PrimTy) (hdl : H) (x : Nat) (v : t.Val) (h8 : t.size ≤ 8) :
    PageSpanKind.write (H := H) ops t (.Mmio (some hdl)) x v
      = .ok (.Mmio (some (ops.write hdl (x &&& (USIZE_MAX - t.ALIGN))
          (t.write v)))) := by
  unfold PageSpanKind.write
  dsimp only
  rw [if_pos h8]

/-- The lookup function of a single span mapped into the empty space. -/
theorem lookup_map_new {H : Type} (A0 N : Nat) (ro : Bool) (p : Nat) :
    (MemoryImpl.map_memory (MemoryImpl.new (H := H)) A0 N ro).lookup p
      = if A0 / 4096 ≤ p ∧ p < (A0 / 4096 + N) % 2 ^ 32 then
          some ⟨⟨N, .Normal (List.replicate ((N <<< PAGE_BITS) % 2 ^ 32) 0),
            ro⟩, p - A0 / 4096, A0 / 4096⟩
        else none := by
  have hrfl : MemoryImpl.map_memory (MemoryImpl.new (H := H)) A0 N ro
      = ⟨[(A0 >>> PAGE_BITS,
          ⟨N, .Normal (List.replicate ((N <<< PAGE_BITS) % 2 ^ 32) 0),
            ro⟩)]⟩ := rfl
  rw [hrfl, lookup_single, shiftRight_page_bits]

/-- The pages of a single `map_memory` on the empty space. -/
theorem map_new_pages {H : Type} (A0 N : Nat) (ro : Bool) :
    (MemoryImpl.map_memory (MemoryImpl.new (H := H)) A0 N ro).pages
      = [(A0 / 4096, ⟨N,
          .Normal (List.replicate ((N <<< PAGE_BITS) % 2 ^ 32) 0), ro⟩)] := by
  have h0 : (MemoryImpl.map_memory (MemoryImpl.new (H := H)) A0 N ro).pages
      = [(A0 >>> PAGE_BITS, ⟨N,
          .Normal (List.replicate ((N <<< PAGE_BITS) % 2 ^ 32) 0), ro⟩)] :=
    rfl
  rw [h0, shiftRight_page_bits]

/-- A successful lookup still succeeds, with the same offset and key,
after the found span is replaced by one of the same page count. -/
theorem lookup_listUpdate {H : Type} (m : MemoryImpl H) (p : Nat)
    (lk : MemoryLookup (PageSpan H)) (h : m.lookup p = some lk)
    (k2 : PageSpanKind H) :
    MemoryImpl.lookup
        ⟨listUpdate m.pages lk.key ⟨lk.item.size, k2, lk.item.read_only⟩⟩ p
      = some ⟨⟨lk.item.size, k2, lk.item.read_only⟩, lk.offset, lk.key⟩ := by
  obtain ⟨hg, hc, hoff⟩ := MemoryImpl.lookup_inv m p lk h
  unfold MemoryImpl.lookup
  have hmap := glbFind_map
    (fun e => if e.1 = lk.key
      then (e.1, (⟨lk.item.size, k2, lk.item.read_only⟩ : PageSpan H))
      else e)
    (listUpdate_keeps_key _ _) m.pages p
  dsimp only
  rw [show listUpdate m.pages lk.key
      (⟨lk.item.size, k2, lk.item.read_only⟩ : PageSpan H)
    = List.map (fun e => if e.1 = lk.key
        then (e.1, (⟨lk.item.size, k2, lk.item.read_only⟩ : PageSpan H))
        else e) m.pages from rfl]
  rw [hmap, hg]
  dsimp only [Option.map]
  rw [if_pos rfl]
  dsimp only
  rw [if_pos hc, hoff]

/-- Forget the read-only flags of an address space: the observation
under which the write path is compared across flag values. -/
def eraseRO {H : Type} (m : MemoryImpl H) :
    List (Nat × Nat × PageSpanKind H) :=
  m.pages.map fun e => (e.1, e.2.size, e.2.kind)

/-! ### The claims -/

/-- C1 (counterexample): with a 2-page span registered at address 0,
address 0x1000 is already mapped; yet `map_memory(0x1000, 1, _)`
neither fails nor leaves the address space unchanged — it registers a
second, overlapping span (the pages map grows from one entry to two).
No overlap check exists in `map_memory`. -/
theorem C1_counterexample :
    (MemoryImpl.map_memory (MemoryImpl.new (H := Unit)) 0 2 false).is_mapped
        4096 = true ∧
      (MemoryImpl.map_memory
        (MemoryImpl.map_memory (MemoryImpl.new (H := Unit)) 0 2 false)
        4096 1 true).pages.length = 2 ∧
      (MemoryImpl.map_memory (MemoryImpl.new (H := Unit)) 0 2
        false).pages.length = 1 := by
  decide

/-- C1 (amended): `map_memory` never fails.  It unconditionally
registers the new `Normal` span under key `addr >> PAGE_BITS`,
replacing whatever span was keyed at that exact page, and leaves every
other key unchanged; overlap with an existing span is not detected. -/
theorem C1_map_memory_registers {H : Type} (m : MemoryImpl H)
    (addr pages : Nat) (ro : Bool) :
    List.lookup (addr >>> PAGE_BITS) (m.map_memory addr pages ro).pages
        = some ⟨pages,
            .Normal (List.replicate ((pages <<< PAGE_BITS) % 2 ^ 32) 0), ro⟩ ∧
      ∀ k, k ≠ addr >>> PAGE_BITS →
        List.lookup k (m.map_memory addr pages ro).pages
          = List.lookup k m.pages :=
  ⟨btreeInsert_lookup_self _ _ _, fun _ hk => btreeInsert_lookup_ne _ _ _ _ hk⟩

theorem C1_map_memory_registers_witness :
    List.lookup 0 ((MemoryImpl.new (H := Unit)).map_memory 0 1 false).pages
        = some ⟨1, .Normal (List.replicate 4096 0), false⟩ ∧
      List.lookup 7 ((MemoryImpl.new (H := Unit)).map_memory 0 1 false).pages
        = List.lookup 7 (MemoryImpl.new (H := Unit)).pages :=
  ⟨(C1_map_memory_registers (MemoryImpl.new (H := Unit)) 0 1 false).1,
    (C1_map_memory_registers (MemoryImpl.new (H := Unit)) 0 1 false).2 7
      (by decide)⟩

/-- C2 (counterexample): after `map(100, 1, _)` on the empty space,
`lookup` succeeds at address 0 although `100 ≤ 0` is false: the mapped
range is measured from the page-truncated base `4096·(100/4096) = 0`,
not from `A0 = 100` itself. -/
theorem C2_counterexample :
    (MemoryImpl.map_memory (MemoryImpl.new (H := Unit)) 100 1
        false).is_mapped 0 = true
      ∧ ¬ (100 ≤ 0) := by
  decide

/-- C2 (amended): let `B = 4096·(A0/4096)` be `A0` truncated to its
containing page.  After `map(A0, N, _)` on the empty address space (and
absent `u32` overflow of the page arithmetic), `lookup(A)` succeeds iff
`B ≤ A < B + N·4096`. -/
theorem C2_lookup_iff {H : Type} (A0 N A : Nat) (ro : Bool)
    (hA0 : A0 < 2 ^ 32) (hA : A < 2 ^ 32)
    (hN : A0 / 4096 + N < 2 ^ 32) :
    (MemoryImpl.map_memory (MemoryImpl.new (H := H)) A0 N ro).is_mapped A
        = true
      ↔ 4096 * (A0 / 4096) ≤ A ∧ A < 4096 * (A0 / 4096) + N * 4096 := by
  unfold MemoryImpl.is_mapped
  rw [and_upper_shift A hA, lookup_map_new, Nat.mod_eq_of_lt hN]
  by_cases hc : A0 / 4096 ≤ A / 4096 ∧ A / 4096 < A0 / 4096 + N
  · rw [if_pos hc]
    simp only [Option.isSome_some]
    simp
    omega
  · rw [if_neg hc]
    simp only [Option.isSome_none]
    simp
    omega

theorem C2_lookup_iff_witness :
    (100 < 2 ^ 32 ∧ 50 < 2 ^ 32 ∧ 100 / 4096 + 1 < 2 ^ 32) ∧
      ((MemoryImpl.map_memory (MemoryImpl.new (H := Unit)) 100 1
          false).is_mapped 50 = true
        ↔ 4096 * (100 / 4096) ≤ 50 ∧ 50 < 4096 * (100 / 4096) + 1 * 4096) :=
  ⟨by norm_num,
    C2_lookup_iff 100 1 50 false (by norm_num) (by norm_num) (by norm_num)⟩

/-- C5: an address contained in no span: `read` and `write` of every
width fail with `UnmappedAccess` (the `expect` panic), return no value,
and produce no updated address space. -/
theorem C5_unmapped_access {H : Type} (ops : IOPageOps H) (t : PrimTy)
    (m : MemoryImpl H) (A : Nat) (v : t.Val)
    (h : m.is_mapped A = false) :
    m.read ops t A = .error .UnmappedAccess ∧
      m.write ops t A v = .error .UnmappedAccess := by
  have hl : m.lookup ((A &&& PAGE_UPPER_MASK) >>> PAGE_BITS) = none := by
    unfold MemoryImpl.is_mapped at h
    cases ho : m.lookup ((A &&& PAGE_UPPER_MASK) >>> PAGE_BITS) with
    | none => rfl
    | some lk =>
        rw [ho] at h
        simp at h
  exact ⟨MemoryImpl.read_eq_of_unmapped ops t m A hl,
    MemoryImpl.write_eq_of_unmapped ops t m A v hl⟩

theorem C5_unmapped_access_witness :
    (MemoryImpl.new (H := Unit)).is_mapped 0 = false ∧
      MemoryImpl.read unitOps .u8 MemoryImpl.new 0
          = .error .UnmappedAccess ∧
      MemoryImpl.write unitOps .u8 MemoryImpl.new 0 (5 : Nat)
          = .error .UnmappedAccess :=
  ⟨by decide,
    (C5_unmapped_access unitOps .u8 MemoryImpl.new 0 5 (by decide)).1,
    (C5_unmapped_access unitOps .u8 MemoryImpl.new 0 5 (by decide)).2⟩

/-- C6: while an MMIO handler invocation is outstanding (the handler
cell holds `None`), a read or write dispatched to the same span fails
with `ReentrantAccess` (the `expect` panic on `handler.take()`), for
every access width. -/
theorem C6_reentrant_mmio {H : Type} (ops : IOPageOps H) (t : PrimTy)
    (m : MemoryImpl H) (A : Nat) (v : t.Val)
    (lk : MemoryLookup (PageSpan H))
    (hlk : m.lookup ((A &&& PAGE_UPPER_MASK) >>> PAGE_BITS) = some lk)
    (hker : lk.item.kind = .Mmio none) :
    m.read ops t A = .error .ReentrantAccess ∧
      m.write ops t A v = .error .ReentrantAccess := by
  constructor
  · have h1 := MemoryImpl.read_eq_of_lookup ops t m A lk hlk
    rw [hker] at h1
    simpa [PageSpanKind.read, Except.map] using h1
  · have h1 := MemoryImpl.write_eq_of_lookup ops t m A v lk hlk
    rw [hker] at h1
    simpa [PageSpanKind.write, Except.map] using h1

theorem C6_reentrant_mmio_witness :
    let m : MemoryImpl Unit := ⟨[(0, ⟨1, .Mmio none, false⟩)]⟩
    MemoryImpl.read unitOps .u32 m 8 = .error .ReentrantAccess ∧
      MemoryImpl.write unitOps .u32 m 8 (77 : Nat)
        = .error .ReentrantAccess :=
  C6_reentrant_mmio unitOps .u32 ⟨[(0, ⟨1, .Mmio none, false⟩)]⟩ 8 77
    ⟨⟨1, .Mmio none, false⟩, 0, 0⟩ (by decide) (by decide)

/-- C7: the tick budget starts at `u64::MAX = 2^64 - 1`; a single debit
of `n` leaves `(2^64-1) - n`; any sequence of debits leaves
`initial - (sum of debits)` in truncated (saturating-at-zero) `Nat`
subtraction, and each debit is monotonically non-increasing — the
counter never wraps. -/
theorem C7_tick_budget :
    Context.new.ticks = 2 ^ 64 - 1 ∧
      (∀ n : Nat, n < 2 ^ 64 →
        (Context.new.add_ticks n).get_ticks_remaining = (2 ^ 64 - 1) - n) ∧
      (∀ (c : Context) (ds : List Nat),
        (ds.foldl Context.add_ticks c).get_ticks_remaining
          = c.ticks - ds.sum) ∧
      (∀ (c : Context) (n : Nat), (c.add_ticks n).ticks ≤ c.ticks) := by
  refine ⟨rfl, fun n _ => rfl, ?_, fun c n => Nat.sub_le _ _⟩
  intro c ds
  induction ds generalizing c with
  | nil => simp [Context.get_ticks_remaining]
  | cons d rest ih =>
      simp only [List.foldl_cons, List.sum_cons, ih]
      simp only [Context.add_ticks]
      omega

theorem C7_tick_budget_witness :
    (5 : Nat) < 2 ^ 64 ∧
      (Context.new.add_ticks 5).get_ticks_remaining = (2 ^ 64 - 1) - 5 :=
  ⟨by norm_num, C7_tick_budget.2.1 5 (by norm_num)⟩

/-- C3 (the code at the failing input): map 3 pages at 0, write the
u32 `0xDEADBEEF` at the aligned address 0x2000, then read back as u32.
`0x2003 & !(4-1) = 0x2000`, so the claim demands that reading at 0x2003
returns the same value as reading at 0x2000; the code returns 0 at
0x2003 and 0xDEADBEEF at 0x2000.  Cause: `lookup` yields the span
offset in pages (here 2), which `read`/`write` add to the byte offset
within the page without shifting by `PAGE_BITS`, so the two accesses
land at backing offsets 4 and 0. -/
theorem C3_misaligned_divergence :
    ((MemoryImpl.map_memory (MemoryImpl.new (H := Unit)) 0 3 false).write
          unitOps .u32 0x2000 0xDEADBEEF).bind
        (fun m2 => Except.map Prod.fst (m2.read unitOps .u32 0x2003))
      = .ok 0 ∧
    ((MemoryImpl.map_memory (MemoryImpl.new (H := Unit)) 0 3 false).write
          unitOps .u32 0x2000 0xDEADBEEF).bind
        (fun m2 => Except.map Prod.fst (m2.read unitOps .u32 0x2000))
      = .ok 0xDEADBEEF ∧
    (0x2003 : Nat) &&& (USIZE_MAX - PrimTy.u32.ALIGN) = 0x2000 := by
  have hpages : MemoryImpl.map_memory (MemoryImpl.new (H := Unit)) 0 3 false
      = ⟨[(0, ⟨3, .Normal (List.replicate 12288 0), false⟩)]⟩ := by
    unfold MemoryImpl.map_memory MemoryImpl.new
    norm_num [btreeInsert, shiftRight_page_bits, shiftLeft_page_bits]
  rw [hpages]
  -- the write at 0x2000 dispatches at page 2, page offset 2 (in pages)
  have hlk1 : (⟨[(0, ⟨3, .Normal (List.replicate 12288 0), false⟩)]⟩ :
        MemoryImpl Unit).lookup ((8192 &&& PAGE_UPPER_MASK) >>> PAGE_BITS)
      = some ⟨⟨3, .Normal (List.replicate 12288 0), false⟩, 2, 0⟩ := by
    rw [and_upper_shift 8192 (by norm_num), lookup_single]
    norm_num
  rw [MemoryImpl.write_eq_of_lookup unitOps .u32 _ 8192 0xDEADBEEF _ hlk1]
  dsimp only
  rw [PageSpanKind.write_normal unitOps .u32 (List.replicate 12288 0)
    (2 + (8192 &&& PAGE_LOWER_MASK)) 0xDEADBEEF 0 (by decide)
    (by rw [List.length_replicate]; decide)]
  dsimp only [Except.map, Except.bind]
  have hupd : listUpdate [(0, (⟨3, .Normal (List.replicate 12288 0), false⟩ :
        PageSpan Unit))] 0
        ⟨3, .Normal ((List.replicate 12288 0).take 0
          ++ PrimTy.write .u32 0xDEADBEEF
          ++ (List.replicate 12288 0).drop (0 + PrimTy.size .u32)), false⟩
      = [(0, ⟨3, .Normal ((List.replicate 12288 0).take 0
          ++ PrimTy.write .u32 0xDEADBEEF
          ++ (List.replicate 12288 0).drop (0 + PrimTy.size .u32)),
          false⟩)] := rfl
  rw [hupd]
  -- name the spliced backing and record its shape and length
  set B2 : List Nat := (List.replicate 12288 0).take 0
      ++ PrimTy.write .u32 0xDEADBEEF
      ++ (List.replicate 12288 0).drop (0 + PrimTy.size .u32) with hB2
  have henclen : (PrimTy.write .u32 0xDEADBEEF).length = 4 :=
    PrimTy.write_length .u32 0xDEADBEEF
  have hB2shape : B2 = PrimTy.write .u32 0xDEADBEEF
      ++ (List.replicate 12288 0).drop 4 := by
    rw [hB2, List.take_zero, List.nil_append]
    norm_num [PrimTy.size]
  have hB2len : B2.length = 12288 := by
    rw [hB2shape, List.length_append, henclen, List.length_drop,
      List.length_replicate]
  constructor
  · -- read back at 0x2003: masked backing offset 4, reads untouched zeros
    have hlk2 : (⟨[(0, ⟨3, .Normal B2, false⟩)]⟩ :
          MemoryImpl Unit).lookup ((8195 &&& PAGE_UPPER_MASK) >>> PAGE_BITS)
        = some ⟨⟨3, .Normal B2, false⟩, 2, 0⟩ := by
      rw [and_upper_shift 8195 (by norm_num), lookup_single]
      norm_num
    rw [MemoryImpl.read_eq_of_lookup unitOps .u32 _ 8195 _ hlk2]
    dsimp only
    rw [PageSpanKind.read_normal unitOps .u32 B2
      (2 + (8195 &&& PAGE_LOWER_MASK)) 4 (by decide) (by rw [hB2len]; decide)]
    dsimp only [Except.map]
    have hval : (B2.drop 4).take (PrimTy.size .u32) = List.replicate 4 0 := by
      rw [hB2shape, List.drop_left' henclen, List.drop_replicate,
        List.take_replicate]
      norm_num [PrimTy.size]
    rw [hval]
    decide
  constructor
  · -- read back at 0x2000: masked backing offset 0, reads the write
    have hlk3 : (⟨[(0, ⟨3, .Normal B2, false⟩)]⟩ :
          MemoryImpl Unit).lookup ((8192 &&& PAGE_UPPER_MASK) >>> PAGE_BITS)
        = some ⟨⟨3, .Normal B2, false⟩, 2, 0⟩ := by
      rw [and_upper_shift 8192 (by norm_num), lookup_single]
      norm_num
    rw [MemoryImpl.read_eq_of_lookup unitOps .u32 _ 8192 _ hlk3]
    dsimp only
    rw [PageSpanKind.read_normal unitOps .u32 B2
      (2 + (8192 &&& PAGE_LOWER_MASK)) 0 (by decide) (by rw [hB2len]; decide)]
    dsimp only [Except.map]
    have hval : (B2.drop 0).take (PrimTy.size .u32)
        = PrimTy.write .u32 0xDEADBEEF := by
      rw [List.drop_zero, hB2shape,
        List.take_left' (PrimTy.write_length .u32 0xDEADBEEF)]
    rw [hval, PrimTy.read_write .u32 0xDEADBEEF (by decide)]
  · decide

/-- The alignment-masked offset plus the access width stays inside a
span of `N` pages: the raw offset is at most `(N-1) + 4095` (page count
plus byte offset — the unit-mixing in the code keeps it small), and the
width is a power of two dividing 4096. -/
theorem splice_length_size (b : List Nat) (t : PrimTy)
    (v : t.Val) (o : Nat) (h : o + t.size ≤ b.length) :
    (b.take o ++ t.write v ++ b.drop (o + t.size)).length = b.length := by
  rw [← t.write_length v] at h ⊢
  exact splice_length _ _ _ h

theorem splice_window_size (b : List Nat) (t : PrimTy) (v : t.Val)
    (o : Nat) (ho : o ≤ b.length) :
    ((b.take o ++ t.write v ++ b.drop (o + t.size)).drop o).take t.size
      = t.write v := by
  rw [← t.write_length v]
  exact splice_window _ _ _ ho

theorem splice_getElem_lt_size (b : List Nat) (t : PrimTy) (v : t.Val)
    (o i : Nat) (ho : o ≤ b.length) (hi : i < o) :
    (b.take o ++ t.write v ++ b.drop (o + t.size))[i]? = b[i]? := by
  rw [← t.write_length v]
  exact splice_getElem_lt _ _ _ _ ho hi

theorem splice_getElem_ge_size (b : List Nat) (t : PrimTy) (v : t.Val)
    (o i : Nat) (ho : o ≤ b.length) (hi : o + t.size ≤ i) :
    (b.take o ++ t.write v ++ b.drop (o + t.size))[i]? = b[i]? := by
  rw [← t.write_length v] at hi ⊢
  exact splice_getElem_ge _ _ _ _ ho hi

theorem aligned_off_bound (t : PrimTy) (x N : Nat) (ht : t.size ≤ 4096)
    (hN0 : 0 < N) (hx : x ≤ (N - 1) + 4095) :
    (x - x % t.size) + t.size ≤ N * 4096 := by
  have hk := t.sizeLog2_le_twelve ht
  have hsz := t.size_eq_two_pow
  have hpos := t.size_pos
  have hmle : x % t.size ≤ x := Nat.mod_le _ _
  by_cases hN1 : N = 1
  · subst hN1
    obtain ⟨q, hq⟩ : t.size ∣ 4096 := by
      rw [hsz]
      have hdvd : (2 : Nat) ^ t.sizeLog2 ∣ 2 ^ 12 := pow_dvd_pow 2 hk
      simpa using hdvd
    have hxo : x - x % t.size = t.size * (x / t.size) := by
      have := Nat.div_add_mod x t.size
      omega
    have hlt : x / t.size < q := by
      rw [Nat.div_lt_iff_lt_mul hpos, Nat.mul_comm q t.size]
      omega
    have hstep : t.size * (x / t.size + 1) ≤ t.size * q :=
      Nat.mul_le_mul_left _ hlt
    have hms : t.size * (x / t.size + 1) = t.size * (x / t.size) + t.size := by
      ring
    omega
  · omega

/-- C4: round-trip.  For every supported width (u8/u16/u32/u64 and the
2-wide arrays, all of size ≤ 4096 and in particular ≤ 16) and every
well-typed value `v`, `write(A, v)` followed by `read(A)` at the same
width on a span mapped by `map(A0, N, false)` (non-read-only; `A` inside
the span's page range; sizes within `u32` range) returns exactly `v`. -/
theorem C4_roundtrip {H : Type} (ops : IOPageOps H) (t : PrimTy)
    (A0 N A : Nat) (v : t.Val)
    (hA0 : A0 < 2 ^ 32) (hA : A < 2 ^ 32)
    (hN0 : 0 < N) (hN : N < 2 ^ 20) (ht : t.size ≤ 4096)
    (hlo : 4096 * (A0 / 4096) ≤ A)
    (hhi : A < 4096 * (A0 / 4096) + N * 4096)
    (hv : t.valFits v = true) :
    ((MemoryImpl.map_memory (MemoryImpl.new (H := H)) A0 N false).write
        ops t A v).bind
        (fun m2 => Except.map Prod.fst (m2.read ops t A))
      = .ok v := by
  have hple : A0 / 4096 ≤ A / 4096 := by omega
  have hplt : A / 4096 < A0 / 4096 + N := by omega
  have hmodN : A0 / 4096 + N < 2 ^ 32 := by omega
  have hszpos := t.size_pos
  have hL : (N <<< PAGE_BITS) % 2 ^ 32 = N * 4096 := by
    rw [shiftLeft_page_bits]
    exact Nat.mod_eq_of_lt (by omega)
  have hlook : (MemoryImpl.map_memory (MemoryImpl.new (H := H)) A0 N
        false).lookup ((A &&& PAGE_UPPER_MASK) >>> PAGE_BITS)
      = some ⟨⟨N, .Normal (List.replicate ((N <<< PAGE_BITS) % 2 ^ 32) 0),
          false⟩, A / 4096 - A0 / 4096, A0 / 4096⟩ := by
    rw [and_upper_shift A hA, lookup_map_new, Nat.mod_eq_of_lt hmodN,
      if_pos ⟨hple, hplt⟩]
  rw [MemoryImpl.write_eq_of_lookup ops t _ A v _ hlook]
  dsimp only
  rw [and_lower, hL]
  have hx64 : A / 4096 - A0 / 4096 + A % 4096 < 2 ^ 64 := by omega
  have hmask := maskAlign_eq t (A / 4096 - A0 / 4096 + A % 4096) hx64 ht
  have hxle : A / 4096 - A0 / 4096 + A % 4096 ≤ (N - 1) + 4095 := by omega
  have hbound := aligned_off_bound t (A / 4096 - A0 / 4096 + A % 4096) N ht
    hN0 hxle
  rw [PageSpanKind.write_normal ops t (List.replicate (N * 4096) 0)
    (A / 4096 - A0 / 4096 + A % 4096) v
    (A / 4096 - A0 / 4096 + A % 4096
      - (A / 4096 - A0 / 4096 + A % 4096) % t.size) hmask
    (by rw [List.length_replicate]; exact hbound)]
  dsimp only [Except.map, Except.bind]
  have hpg : (MemoryImpl.map_memory (MemoryImpl.new (H := H)) A0 N
        false).pages
      = [(A0 / 4096, ⟨N,
          .Normal (List.replicate ((N <<< PAGE_BITS) % 2 ^ 32) 0),
          false⟩)] := by
    have h0 : (MemoryImpl.map_memory (MemoryImpl.new (H := H)) A0 N
          false).pages
        = [(A0 >>> PAGE_BITS, ⟨N,
            .Normal (List.replicate ((N <<< PAGE_BITS) % 2 ^ 32) 0),
            false⟩)] := rfl
    rw [h0, shiftRight_page_bits]
  rw [hpg, hL]
  set SPL : List Nat := (List.replicate (N * 4096) (0 : Nat)).take
      (A / 4096 - A0 / 4096 + A % 4096
        - (A / 4096 - A0 / 4096 + A % 4096) % t.size)
      ++ t.write v
      ++ (List.replicate (N * 4096) 0).drop
        ((A / 4096 - A0 / 4096 + A % 4096
          - (A / 4096 - A0 / 4096 + A % 4096) % t.size) + t.size)
    with hSPL
  have hupd : listUpdate
      [(A0 / 4096, (⟨N, .Normal (List.replicate (N * 4096) 0), false⟩ :
        PageSpan H))] (A0 / 4096) ⟨N, .Normal SPL, false⟩
      = [(A0 / 4096, ⟨N, .Normal SPL, false⟩)] := by
    simp [listUpdate]
  rw [hupd]
  have hSPLlen : SPL.length = N * 4096 := by
    rw [hSPL, splice_length_size _ t v _
      (by rw [List.length_replicate]; exact hbound), List.length_replicate]
  have hlook2 : (⟨[(A0 / 4096, ⟨N, .Normal SPL, false⟩)]⟩ :
        MemoryImpl H).lookup ((A &&& PAGE_UPPER_MASK) >>> PAGE_BITS)
      = some ⟨⟨N, .Normal SPL, false⟩, A / 4096 - A0 / 4096,
          A0 / 4096⟩ := by
    rw [and_upper_shift A hA, lookup_single]
    dsimp only
    rw [Nat.mod_eq_of_lt hmodN, if_pos ⟨hple, hplt⟩]
  rw [MemoryImpl.read_eq_of_lookup ops t _ A _ hlook2]
  dsimp only
  rw [and_lower]
  rw [PageSpanKind.read_normal ops t SPL
    (A / 4096 - A0 / 4096 + A % 4096)
    (A / 4096 - A0 / 4096 + A % 4096
      - (A / 4096 - A0 / 4096 + A % 4096) % t.size) hmask
    (by rw [hSPLlen]; exact hbound)]
  dsimp only [Except.map]
  have hwin : (SPL.drop (A / 4096 - A0 / 4096 + A % 4096
      - (A / 4096 - A0 / 4096 + A % 4096) % t.size)).take t.size
      = t.write v := by
    rw [hSPL]
    exact splice_window_size _ t v _ (by rw [List.length_replicate]; omega)
  rw [hwin, PrimTy.read_write t v hv]

theorem C4_roundtrip_witness :
    PrimTy.valFits .u16 0xBEEF = true ∧
      ((MemoryImpl.map_memory (MemoryImpl.new (H := Unit)) 0 1 false).write
          unitOps .u16 3 0xBEEF).bind
        (fun m2 => Except.map Prod.fst (m2.read unitOps .u16 3))
      = .ok 0xBEEF :=
  ⟨by decide,
    C4_roundtrip unitOps .u16 0 1 3 0xBEEF (by norm_num) (by norm_num)
      (by norm_num) (by norm_num) (by decide) (by norm_num) (by norm_num)
      (by decide)⟩

/-- C8: the read-only flag is advisory.  (1) A write to a span
registered with `read_only = true` behaves exactly like the same write
on the span registered with `read_only = false`: same success/failure,
same resulting sizes, kinds and backings (everything except the stored
flag itself) — in particular it is never rejected because of the flag.
(2) `is_read_only(A)` for `A` inside the span returns exactly the flag
passed at registration. -/
theorem C8_read_only_advisory {H : Type} (ops : IOPageOps H) (t : PrimTy) :
    (∀ (A0 N A : Nat) (v : t.Val),
      Except.map eraseRO
          ((MemoryImpl.map_memory (MemoryImpl.new (H := H)) A0 N true).write
            ops t A v)
        = Except.map eraseRO
          ((MemoryImpl.map_memory (MemoryImpl.new (H := H)) A0 N false).write
            ops t A v)) ∧
    (∀ (A0 N A : Nat) (ro : Bool), A0 < 2 ^ 32 → A < 2 ^ 32 →
      A0 / 4096 + N < 2 ^ 32 → 4096 * (A0 / 4096) ≤ A →
      A < 4096 * (A0 / 4096) + N * 4096 →
      (MemoryImpl.map_memory (MemoryImpl.new (H := H)) A0 N ro).is_read_only A
        = .ok ro) := by
  constructor
  · intro A0 N A v
    by_cases hc : A0 / 4096 ≤ (A &&& PAGE_UPPER_MASK) >>> PAGE_BITS ∧
        (A &&& PAGE_UPPER_MASK) >>> PAGE_BITS < (A0 / 4096 + N) % 2 ^ 32
    · have hlt := lookup_map_new (H := H) A0 N true
        ((A &&& PAGE_UPPER_MASK) >>> PAGE_BITS)
      have hlf := lookup_map_new (H := H) A0 N false
        ((A &&& PAGE_UPPER_MASK) >>> PAGE_BITS)
      rw [if_pos hc] at hlt hlf
      rw [MemoryImpl.write_eq_of_lookup ops t _ A v _ hlt,
        MemoryImpl.write_eq_of_lookup ops t _ A v _ hlf]
      dsimp only
      cases hkw : PageSpanKind.write ops t
          (.Normal (List.replicate ((N <<< PAGE_BITS) % 2 ^ 32) 0))
          ((A &&& PAGE_UPPER_MASK) >>> PAGE_BITS - A0 / 4096
            + (A &&& PAGE_LOWER_MASK)) v with
      | error e => rfl
      | ok kind2 =>
          dsimp only [Except.map]
          rw [map_new_pages, map_new_pages]
          have hupdT : listUpdate [(A0 / 4096,
              (⟨N, .Normal (List.replicate ((N <<< PAGE_BITS) % 2 ^ 32) 0),
                true⟩ : PageSpan H))] (A0 / 4096) ⟨N, kind2, true⟩
              = [(A0 / 4096, ⟨N, kind2, true⟩)] := by
            simp [listUpdate]
          have hupdF : listUpdate [(A0 / 4096,
              (⟨N, .Normal (List.replicate ((N <<< PAGE_BITS) % 2 ^ 32) 0),
                false⟩ : PageSpan H))] (A0 / 4096) ⟨N, kind2, false⟩
              = [(A0 / 4096, ⟨N, kind2, false⟩)] := by
            simp [listUpdate]
          rw [hupdT, hupdF]
          unfold eraseRO
          rfl
    · have hlt := lookup_map_new (H := H) A0 N true
        ((A &&& PAGE_UPPER_MASK) >>> PAGE_BITS)
      have hlf := lookup_map_new (H := H) A0 N false
        ((A &&& PAGE_UPPER_MASK) >>> PAGE_BITS)
      rw [if_neg hc] at hlt hlf
      rw [MemoryImpl.write_eq_of_unmapped ops t _ A v hlt,
        MemoryImpl.write_eq_of_unmapped ops t _ A v hlf]
  · intro A0 N A ro hA0 hA hN hlo hhi
    have hple : A0 / 4096 ≤ A / 4096 := by omega
    have hplt : A / 4096 < A0 / 4096 + N := by omega
    unfold MemoryImpl.is_read_only
    rw [and_upper_shift A hA, lookup_map_new, Nat.mod_eq_of_lt hN,
      if_pos ⟨hple, hplt⟩]

theorem C8_read_only_advisory_witness :
    (Except.map eraseRO
        ((MemoryImpl.map_memory (MemoryImpl.new (H := Unit)) 0 1 true).write
          unitOps .u8 2 7)
      = Except.map eraseRO
        ((MemoryImpl.map_memory (MemoryImpl.new (H := Unit)) 0 1
          false).write unitOps .u8 2 7)) ∧
    (MemoryImpl.map_memory (MemoryImpl.new (H := Unit)) 0 1
        true).is_read_only 2 = .ok true :=
  ⟨(C8_read_only_advisory unitOps .u8).1 0 1 2 7,
    (C8_read_only_advisory unitOps .u8).2 0 1 2 true (by norm_num)
      (by norm_num) (by norm_num) (by norm_num) (by norm_num)⟩

/-- C9: frame property of a write that dispatches to a `Normal` span.
The write succeeds and the new state is exactly the old one with that
span's backing replaced; the new backing has the same length, agrees
with the old one at every index outside `[o, o + SIZE)` (where `o` is
the alignment-masked offset the code computes), holds the encoded value
at `[o, o + SIZE)` — and the key set and all other spans are
unchanged. -/
theorem C9_write_frame {H : Type} (ops : IOPageOps H) (t : PrimTy)
    (m : MemoryImpl H) (A : Nat) (v : t.Val)
    (lk : MemoryLookup (PageSpan H)) (B : List Nat) (o : Nat)
    (hlk : m.lookup ((A &&& PAGE_UPPER_MASK) >>> PAGE_BITS) = some lk)
    (hker : lk.item.kind = .Normal B)
    (ho : (lk.offset + (A &&& PAGE_LOWER_MASK)) &&& (USIZE_MAX - t.ALIGN)
      = o)
    (hb : o + t.size ≤ B.length) :
    m.write ops t A v = .ok ⟨listUpdate m.pages lk.key
        ⟨lk.item.size,
          .Normal (B.take o ++ t.write v ++ B.drop (o + t.size)),
          lk.item.read_only⟩⟩ ∧
      (B.take o ++ t.write v ++ B.drop (o + t.size)).length = B.length ∧
      (∀ i, i < o →
        (B.take o ++ t.write v ++ B.drop (o + t.size))[i]? = B[i]?) ∧
      (∀ i, o + t.size ≤ i →
        (B.take o ++ t.write v ++ B.drop (o + t.size))[i]? = B[i]?) ∧
      ((B.take o ++ t.write v ++ B.drop (o + t.size)).drop o).take t.size
        = t.write v ∧
      (listUpdate m.pages lk.key
        ⟨lk.item.size,
          .Normal (B.take o ++ t.write v ++ B.drop (o + t.size)),
          lk.item.read_only⟩).map Prod.fst = m.pages.map Prod.fst ∧
      (∀ k2, k2 ≠ lk.key →
        List.lookup k2 (listUpdate m.pages lk.key
          ⟨lk.item.size,
            .Normal (B.take o ++ t.write v ++ B.drop (o + t.size)),
            lk.item.read_only⟩) = List.lookup k2 m.pages) := by
  have ho2 : o ≤ B.length := by
    have := t.size_pos
    omega
  refine ⟨?_, splice_length_size _ t v _ hb,
    fun i hi => splice_getElem_lt_size _ t v _ _ ho2 hi,
    fun i hi => splice_getElem_ge_size _ t v _ _ ho2 hi,
    splice_window_size _ t v _ ho2,
    listUpdate_keys _ _ _,
    fun k2 hk2 => listUpdate_lookup_ne _ _ _ _ hk2⟩
  rw [MemoryImpl.write_eq_of_lookup ops t m A v lk hlk, hker,
    PageSpanKind.write_normal ops t B _ v o ho hb]
  rfl

theorem C9_write_frame_witness :
    MemoryImpl.write unitOps .u8
        (⟨[(0, ⟨1, .Normal (List.replicate 4096 0), false⟩)]⟩ :
          MemoryImpl Unit) 5 9
      = .ok ⟨listUpdate [(0, ⟨1, .Normal (List.replicate 4096 0), false⟩)] 0
          ⟨1, .Normal ((List.replicate 4096 0).take 5 ++ PrimTy.write .u8 9
            ++ (List.replicate 4096 0).drop (5 + PrimTy.size .u8)),
            false⟩⟩ :=
  (C9_write_frame unitOps .u8
    ⟨[(0, ⟨1, .Normal (List.replicate 4096 0), false⟩)]⟩ 5 9
    ⟨⟨1, .Normal (List.replicate 4096 0), false⟩, 0, 0⟩
    (List.replicate 4096 0) 5 rfl rfl rfl
    (by rw [List.length_replicate]; decide)).1

/-- C10: a non-nested MMIO access (handler present, width at most the
8-byte staging buffer) succeeds and puts the handler back into the span
before returning: the updated span holds `Some` handler again, and a
subsequent access to the same span also succeeds instead of failing
with `ReentrantAccess`.  Both the read and the write path restore the
handler. -/
theorem C10_mmio_restores {H : Type} (ops : IOPageOps H) (t : PrimTy)
    (m : MemoryImpl H) (A : Nat) (v : t.Val) (hdl : H)
    (lk : MemoryLookup (PageSpan H))
    (hlk : m.lookup ((A &&& PAGE_UPPER_MASK) >>> PAGE_BITS) = some lk)
    (hker : lk.item.kind = .Mmio (some hdl)) (h8 : t.size ≤ 8) :
    (∃ val m2 hdl2, m.read ops t A = .ok (val, m2) ∧
      m2.lookup ((A &&& PAGE_UPPER_MASK) >>> PAGE_BITS)
        = some ⟨⟨lk.item.size, .Mmio (some hdl2), lk.item.read_only⟩,
            lk.offset, lk.key⟩ ∧
      (m2.read ops t A).isOk = true) ∧
    (∃ m3 hdl3, m.write ops t A v = .ok m3 ∧
      m3.lookup ((A &&& PAGE_UPPER_MASK) >>> PAGE_BITS)
        = some ⟨⟨lk.item.size, .Mmio (some hdl3), lk.item.read_only⟩,
            lk.offset, lk.key⟩ ∧
      (m3.write ops t A v).isOk = true) := by
  constructor
  · have h1 := MemoryImpl.read_eq_of_lookup ops t m A lk hlk
    rw [hker, PageSpanKind.read_mmio ops t hdl _ h8] at h1
    dsimp only [Except.map] at h1
    have hlk2 := lookup_listUpdate m _ lk hlk
      (.Mmio (some (ops.read hdl
        ((lk.offset + (A &&& PAGE_LOWER_MASK)) &&& (USIZE_MAX - t.ALIGN))
        t.size).2))
    refine ⟨_, _, _, h1, hlk2, ?_⟩
    have h2 := MemoryImpl.read_eq_of_lookup ops t _ A _ hlk2
    dsimp only at h2
    rw [PageSpanKind.read_mmio ops t _ _ h8] at h2
    rw [h2]
    rfl
  · have h1 := MemoryImpl.write_eq_of_lookup ops t m A v lk hlk
    rw [hker, PageSpanKind.write_mmio ops t hdl _ v h8] at h1
    dsimp only [Except.map] at h1
    have hlk2 := lookup_listUpdate m _ lk hlk
      (.Mmio (some (ops.write hdl
        ((lk.offset + (A &&& PAGE_LOWER_MASK)) &&& (USIZE_MAX - t.ALIGN))
        (t.write v))))
    refine ⟨_, _, h1, hlk2, ?_⟩
    have h2 := MemoryImpl.write_eq_of_lookup ops t _ A v _ hlk2
    dsimp only at h2
    rw [PageSpanKind.write_mmio ops t _ _ v h8] at h2
    rw [h2]
    rfl

theorem C10_mmio_restores_witness :
    (∃ val m2 hdl2, MemoryImpl.read unitOps .u16
        (⟨[(0, ⟨1, .Mmio (some ()), false⟩)]⟩ : MemoryImpl Unit) 2
        = .ok (val, m2) ∧
      m2.lookup ((2 &&& PAGE_UPPER_MASK) >>> PAGE_BITS)
        = some ⟨⟨1, .Mmio (some hdl2), false⟩, 0, 0⟩ ∧
      (m2.read unitOps .u16 2).isOk = true) ∧
    (∃ m3 hdl3, MemoryImpl.write unitOps .u16
        (⟨[(0, ⟨1, .Mmio (some ()), false⟩)]⟩ : MemoryImpl Unit) 2
          (5 : Nat)
        = .ok m3 ∧
      m3.lookup ((2 &&& PAGE_UPPER_MASK) >>> PAGE_BITS)
        = some ⟨⟨1, .Mmio (some hdl3), false⟩, 0, 0⟩ ∧
      (m3.write unitOps .u16 2 (5 : Nat)).isOk = true) :=
  C10_mmio_restores unitOps .u16
    ⟨[(0, ⟨1, .Mmio (some ()), false⟩)]⟩ 2 5 ()
    ⟨⟨1, .Mmio (some ()), false⟩, 0, 0⟩ rfl rfl (by decide)

end Dynarmic
